import Mathlib

/-!
# Verification of the bluemonday policy helpers (`helpers.go`)

This file shallowly embeds the source file `helpers.go` of the bluemonday
HTML-sanitizer policy library, together with the policy engine that the
repository's specification describes (the engine itself, `policy.go` and
`sanitize.go`, is not part of the sources under verification; everything
taken from the specification instead of from source code carries a doc
comment starting with "Modelled from the spec:").

Regular expressions are embedded as an explicit syntax tree with a
Brzozowski-derivative matcher.  Go's `regexp.MatchString` reports whether
the string CONTAINS a match of the pattern (substring search); a pattern
anchored with a leading caret and a trailing dollar therefore behaves as a
whole-string match.  The source anchors exactly two of its patterns
(`Number` and `ISO8601`) and leaves the rest unanchored, so the embedding
uses `RE.search` (substring search) for the unanchored patterns and
`RE.fullMatch` for the anchored ones.
-/

namespace Bluemonday

/-- Regular-expression syntax: empty language, empty string, a character
class given by a Boolean predicate, concatenation, alternation and
Kleene star.  This is the fragment used by the patterns in `helpers.go`
(RE2 has no backreferences, so every pattern there is a regular
expression in this classical sense). -/
inductive RE : Type where
  | emp : RE
  | eps : RE
  | cls (p : Char → Bool) : RE
  | cat (a b : RE) : RE
  | alt (a b : RE) : RE
  | star (a : RE) : RE

/-- Does the regular expression accept the empty string? -/
def RE.nullable : RE → Bool
  | .emp => false
  | .eps => true
  | .cls _ => false
  | .cat a b => a.nullable && b.nullable
  | .alt a b => a.nullable || b.nullable
  | .star _ => true

/-- Smart concatenation constructor (simplifies the unit and the absorbing
element so that derivatives stay small). -/
def RE.catS : RE → RE → RE
  | .emp, _ => .emp
  | _, .emp => .emp
  | .eps, b => b
  | a, .eps => a
  | a, b => .cat a b

/-- Smart alternation constructor. -/
def RE.altS : RE → RE → RE
  | .emp, b => b
  | a, .emp => a
  | a, b => .alt a b

/-- Brzozowski derivative of a regular expression with respect to one
character. -/
def RE.deriv : RE → Char → RE
  | .emp, _ => .emp
  | .eps, _ => .emp
  | .cls p, c => if p c then .eps else .emp
  | .cat a b, c =>
      if a.nullable then RE.altS (RE.catS (a.deriv c) b) (b.deriv c)
      else RE.catS (a.deriv c) b
  | .alt a b, c => RE.altS (a.deriv c) (b.deriv c)
  | .star a, c => RE.catS (a.deriv c) (.star a)

/-- Whole-string match (the behaviour of `MatchString` for a pattern that
is anchored on both sides). -/
def RE.fullMatch : RE → List Char → Bool
  | r, [] => r.nullable
  | r, c :: s => (r.deriv c).fullMatch s

/-- Does some prefix of the character list match the expression? -/
def RE.prefixMatch : RE → List Char → Bool
  | r, [] => r.nullable
  | r, c :: s => r.nullable || (r.deriv c).prefixMatch s

/-- Substring search: the behaviour of Go's `regexp.MatchString` for an
unanchored pattern — does any substring (equivalently: some prefix of
some suffix) match the expression? -/
def RE.search : RE → List Char → Bool
  | r, [] => r.nullable
  | r, c :: s => r.prefixMatch (c :: s) || r.search s

/-- Single literal character. -/
def RE.chr (c : Char) : RE := .cls (fun x => x == c)

/-- Single literal character under the case-insensitive flag. -/
def RE.chrCI (c : Char) : RE := .cls (fun x => x.toLower == c.toLower)

/-- Literal string. -/
def RE.str (s : String) : RE := s.data.foldr (fun c r => .cat (RE.chr c) r) .eps

/-- Literal string under the case-insensitive flag. -/
def RE.strCI (s : String) : RE := s.data.foldr (fun c r => .cat (RE.chrCI c) r) .eps

/-- `r?` -/
def RE.opt (a : RE) : RE := .alt a .eps

/-- `r+` -/
def RE.plus (a : RE) : RE := .cat a (.star a)

/-- `r{n}` -/
def RE.rep : RE → Nat → RE
  | _, 0 => .eps
  | a, n + 1 => .cat a (RE.rep a n)

/-- `r{0,n}` -/
def RE.repUpTo : RE → Nat → RE
  | _, 0 => .eps
  | a, n + 1 => RE.opt (.cat a (RE.repUpTo a n))

/-- `r{lo,hi}` -/
def RE.repRange (a : RE) (lo hi : Nat) : RE := .cat (a.rep lo) (a.repUpTo (hi - lo))

/-- Character class listing the characters it accepts. -/
def RE.oneOf (cs : List Char) : RE := .cls (fun x => cs.contains x)

/-- Character range such as `[0-9]`. -/
def RE.rng (lo hi : Char) : RE := .cls (fun x => decide (lo ≤ x) && decide (x ≤ hi))

/-- The class `[0-9]` (RE2 `\d`). -/
def digitRE : RE := RE.rng '0' '9'

/-- RE2 whitespace class `\s`, which is exactly the set
tab, newline, form feed, carriage return and space. -/
def goSpace (c : Char) : Bool :=
  c == '\t' || c == '\n' || c == '\x0c' || c == '\r' || c == ' '

/-- A value matcher: the embedding of a compiled Go regular expression as
used on attribute values, i.e. a Boolean predicate on strings. -/
abbrev Matcher := String → Bool

/-! ## The matchers of `helpers.go` -/

/-- Source pattern `(?i)center|justify|left|right|char` (unanchored). -/
def CellAlignRE : RE :=
  .alt (RE.strCI "center") (.alt (RE.strCI "justify")
    (.alt (RE.strCI "left") (.alt (RE.strCI "right") (RE.strCI "char"))))

/-- `CellAlign` from `helpers.go`. -/
def CellAlign : Matcher := fun s => CellAlignRE.search s.data

/-- Source pattern `(?i)baseline|bottom|middle|top` (unanchored). -/
def CellVerticalAlignRE : RE :=
  .alt (RE.strCI "baseline") (.alt (RE.strCI "bottom")
    (.alt (RE.strCI "middle") (RE.strCI "top")))

/-- `CellVerticalAlign` from `helpers.go`. -/
def CellVerticalAlign : Matcher := fun s => CellVerticalAlignRE.search s.data

/-- Source pattern `(?i)rtl|ltr` (unanchored). -/
def DirectionRE : RE := .alt (RE.strCI "rtl") (RE.strCI "ltr")

/-- `Direction` from `helpers.go`. -/
def Direction : Matcher := fun s => DirectionRE.search s.data

/-- Source pattern
`(?i)left|right|top|texttop|middle|absmiddle|baseline|bottom|absbottom`. -/
def ImageAlignRE : RE :=
  .alt (RE.strCI "left") (.alt (RE.strCI "right") (.alt (RE.strCI "top")
    (.alt (RE.strCI "texttop") (.alt (RE.strCI "middle")
      (.alt (RE.strCI "absmiddle") (.alt (RE.strCI "baseline")
        (.alt (RE.strCI "bottom") (RE.strCI "absbottom"))))))))

/-- `ImageAlign` from `helpers.go`. -/
def ImageAlign : Matcher := fun s => ImageAlignRE.search s.data

/-- Source pattern `[0-9]+` (unanchored). -/
def IntegerRE : RE := RE.plus digitRE

/-- `Integer` from `helpers.go`: the whole-positive-integer matcher used
in places like `td.colspan`. -/
def Integer : Matcher := fun s => IntegerRE.search s.data

/-- `([\+-]?\d{4})` — the year. -/
def iso8601YearRE : RE := .cat (RE.opt (RE.oneOf ['+', '-'])) (digitRE.rep 4)

/-- `(0[1-9]|1[0-2])([12]\d|0[1-9]|3[01])?` — month directly followed by
an optional day (the separator backreference of the original PERL pattern
was removed for Go). -/
def iso8601MonthDayRE : RE :=
  .cat (.alt (.cat (RE.chr '0') (RE.rng '1' '9')) (.cat (RE.chr '1') (RE.rng '0' '2')))
    (RE.opt (.alt (.cat (RE.oneOf ['1', '2']) digitRE)
      (.alt (.cat (RE.chr '0') (RE.rng '1' '9')) (.cat (RE.chr '3') (RE.oneOf ['0', '1'])))))

/-- `W([0-4]\d|5[0-2])(-?[1-7])?` — week date. -/
def iso8601WeekRE : RE :=
  .cat (RE.chr 'W')
    (.cat (.alt (.cat (RE.rng '0' '4') digitRE) (.cat (RE.chr '5') (RE.rng '0' '2')))
      (RE.opt (.cat (RE.opt (RE.chr '-')) (RE.rng '1' '7'))))

/-- `(00[1-9]|0[1-9]\d|[12]\d{2}|3([0-5]\d|6[1-6]))` — ordinal date. -/
def iso8601OrdinalRE : RE :=
  .alt (.cat (RE.str "00") (RE.rng '1' '9'))
    (.alt (.cat (RE.chr '0') (.cat (RE.rng '1' '9') digitRE))
      (.alt (.cat (RE.oneOf ['1', '2']) (digitRE.rep 2))
        (.cat (RE.chr '3')
          (.alt (.cat (RE.rng '0' '5') digitRE) (.cat (RE.chr '6') (RE.rng '1' '6'))))))

/-- `(([01]\d|2[0-3])((:?)[0-5]\d)?|24\:?00)([\.,]\d+[^:])?` — hour and
minute with optional fraction. -/
def iso8601HourMinRE : RE :=
  .cat
    (.alt
      (.cat (.alt (.cat (RE.oneOf ['0', '1']) digitRE) (.cat (RE.chr '2') (RE.rng '0' '3')))
        (RE.opt (.cat (RE.opt (RE.chr ':')) (.cat (RE.rng '0' '5') digitRE))))
      (.cat (RE.str "24") (.cat (RE.opt (RE.chr ':')) (RE.str "00"))))
    (RE.opt (.cat (RE.oneOf ['.', ','])
      (.cat IntegerRE (.cls (fun c => c != ':')))))

/-- `([0-5]\d([\.,]\d+)?)` — the seconds (their separator backreference
was also removed for Go, so they must follow with no colon). -/
def iso8601SecondsRE : RE :=
  .cat (RE.rng '0' '5') (.cat digitRE (RE.opt (.cat (RE.oneOf ['.', ',']) IntegerRE)))

/-- `([zZ]|([\+-])([01]\d|2[0-3]):?([0-5]\d)?)` — the timezone. -/
def iso8601TZRE : RE :=
  .alt (RE.oneOf ['z', 'Z'])
    (.cat (RE.oneOf ['+', '-'])
      (.cat (.alt (.cat (RE.oneOf ['0', '1']) digitRE) (.cat (RE.chr '2') (RE.rng '0' '3')))
        (.cat (RE.opt (RE.chr ':')) (RE.opt (.cat (RE.rng '0' '5') digitRE)))))

/-- `[T\s](HOURMIN)?(SECONDS)?(TZ)?` — the optional time-of-day part. -/
def iso8601TimeRE : RE :=
  .cat (.cls (fun c => c == 'T' || goSpace c))
    (.cat (RE.opt iso8601HourMinRE) (.cat (RE.opt iso8601SecondsRE) (RE.opt iso8601TZRE)))

/-- The full `ISO8601` pattern of `helpers.go`:
`^([\+-]?\d{4})((-?)((MONTHDAY)|(WEEK)|(ORDINAL))(TIME)?)?$`.
The pattern is anchored on both sides, so the matcher is a whole-string
match. -/
def ISO8601RE : RE :=
  .cat iso8601YearRE
    (RE.opt (.cat (RE.opt (RE.chr '-'))
      (.cat (.alt iso8601MonthDayRE (.alt iso8601WeekRE iso8601OrdinalRE))
        (RE.opt iso8601TimeRE))))

/-- `ISO8601` from `helpers.go`. -/
def ISO8601 : Matcher := fun s => ISO8601RE.fullMatch s.data

/-- Source pattern `(?i)circle|disc|square|a|A|i|I|1` (unanchored). -/
def ListTypeRE : RE :=
  .alt (RE.strCI "circle") (.alt (RE.strCI "disc") (.alt (RE.strCI "square")
    (.alt (RE.chrCI 'a') (.alt (RE.chrCI 'A') (.alt (RE.chrCI 'i')
      (.alt (RE.chrCI 'I') (RE.chr '1')))))))

/-- `ListType` from `helpers.go`. -/
def ListType : Matcher := fun s => ListTypeRE.search s.data

/-- Source pattern `[a-zA-Z0-9\-_\$]+` (unanchored). -/
def NamesAndSpacesRE : RE :=
  RE.plus (.cls (fun c => c.isAlpha || c.isDigit || c == '-' || c == '_' || c == '$'))

/-- `NamesAndSpaces` from `helpers.go`. -/
def NamesAndSpaces : Matcher := fun s => NamesAndSpacesRE.search s.data

/-- Source pattern `^[-+]?[0-9]*\.?[0-9]+$` (anchored on both sides). -/
def NumberRE : RE :=
  .cat (RE.opt (RE.oneOf ['-', '+']))
    (.cat (.star digitRE) (.cat (RE.opt (RE.chr '.')) IntegerRE))

/-- `Number` from `helpers.go`. -/
def Number : Matcher := fun s => NumberRE.fullMatch s.data

/-- Source pattern `[0-9]+%?` (unanchored). -/
def NumberOrPercentRE : RE := .cat IntegerRE (RE.opt (RE.chr '%'))

/-- `NumberOrPercent` from `helpers.go`. -/
def NumberOrPercent : Matcher := fun s => NumberOrPercentRE.search s.data

/-- The character class of the `Paragraph` pattern,
`[\p{L}\p{N}\s\-_',:\[\]!\./\\\(\)&]`.  The Unicode categories `\p{L}`
(letters) and `\p{N}` (numbers) are modelled on the ASCII range, where
they coincide with `Char.isAlpha` and `Char.isDigit`; every concrete
string evaluated below is ASCII, and the two general theorems about
`Paragraph` hold for every choice of the class contents because the
pattern as a whole is a star. -/
def paragraphChar (c : Char) : Bool :=
  c.isAlpha || c.isDigit || goSpace c ||
    ['-', '_', '\'', ',', ':', '[', ']', '!', '.', '/', '\\', '(', ')', '&'].contains c

/-- Source pattern `[\p{L}\p{N}\s\-_',:\[\]!\./\\\(\)&]*` (unanchored, a
star of a character class). -/
def ParagraphRE : RE := .star (.cls paragraphChar)

/-- `Paragraph` from `helpers.go`: the free-text matcher used for
`title`, `img.alt`, `td.abbr` and `table.summary`. -/
def Paragraph : Matcher := fun s => ParagraphRE.search s.data

/-- Inline pattern `[a-zA-Z]{2,20}` of `AllowStandardAttributes` for the
`lang` attribute. -/
def langRE : RE := RE.repRange (.cls (fun c => c.isAlpha)) 2 20

/-- The `lang` matcher registered by `AllowStandardAttributes`. -/
def langMatcher : Matcher := fun s => langRE.search s.data

/-- Inline pattern `[a-zA-Z0-9\:\-_\.]+` of `AllowStandardAttributes` for
the `id` attribute. -/
def idRE : RE :=
  RE.plus (.cls (fun c => c.isAlpha || c.isDigit || c == ':' || c == '-' || c == '_' || c == '.'))

/-- The `id` matcher registered by `AllowStandardAttributes`. -/
def idMatcher : Matcher := fun s => idRE.search s.data

/-- Inline pattern `(?i)(?:row|col)(?:group)?` of `AllowTables` for the
`scope` attribute. -/
def scopeRE : RE :=
  .cat (.alt (RE.strCI "row") (RE.strCI "col")) (RE.opt (RE.strCI "group"))

/-- The `scope` matcher registered by `AllowTables`. -/
def scopeMatcher : Matcher := fun s => scopeRE.search s.data

/-- Inline pattern `(?i)|nowrap` of `AllowTables` for the `nowrap`
attribute: an alternation whose first alternative is the empty pattern. -/
def nowrapRE : RE := .alt .eps (RE.strCI "nowrap")

/-- The `nowrap` matcher registered by `AllowTables`. -/
def nowrapMatcher : Matcher := fun s => nowrapRE.search s.data

/-! ## Basic facts about the matcher semantics -/

/-- The empty-language expression matches no prefix. -/
theorem emp_prefixMatch_false (l : List Char) : RE.emp.prefixMatch l = false := by
  induction l with
  | nil => rfl
  | cons c t ih => simp [RE.prefixMatch, RE.deriv, RE.nullable, ih]

/-- A star always matches the empty prefix. -/
theorem star_prefixMatch_true (a : RE) (l : List Char) :
    (RE.star a).prefixMatch l = true := by
  cases l <;> simp [RE.prefixMatch, RE.nullable]

/-- Substring search for a nullable expression succeeds on every input:
the empty substring is a match. -/
theorem search_of_nullable (r : RE) (h : r.nullable = true) (l : List Char) :
    r.search l = true := by
  cases l with
  | nil => simpa [RE.search]
  | cons c t => simp [RE.search, RE.prefixMatch, h]

/-- Characterization of `Integer`: the unanchored pattern `[0-9]+` finds a
match exactly when some character of the input is an ASCII digit. -/
theorem integer_search_eq_any_digit (l : List Char) :
    IntegerRE.search l = l.any (fun c => decide ('0' ≤ c) && decide (c ≤ '9')) := by
  induction l with
  | nil => rfl
  | cons c t ih =>
    have hpre : IntegerRE.prefixMatch (c :: t)
        = (decide ('0' ≤ c) && decide (c ≤ '9')) := by
      cases hd : (decide ('0' ≤ c) && decide (c ≤ '9')) with
      | false =>
        simp [IntegerRE, RE.plus, RE.prefixMatch, RE.deriv, RE.nullable, RE.catS,
          digitRE, RE.rng, hd, emp_prefixMatch_false]
      | true =>
        simp [IntegerRE, RE.plus, RE.prefixMatch, RE.deriv, RE.nullable, RE.catS,
          digitRE, RE.rng, hd, star_prefixMatch_true]
    simp [RE.search, hpre, ih]

/-! ## Claims about the matchers in isolation -/

/-- Claim C1 (evaluation of the code at the failing inputs): the free-text
matcher `Paragraph` does NOT reject values containing an unescaped angle
bracket.  Its pattern is an unanchored star, so under Go's `MatchString`
the empty substring is a match of it inside every value: `Paragraph`
accepts the one-character value consisting of an opening angle bracket, it
accepts a value containing both brackets, and in fact it accepts every
string whatsoever. -/
theorem c1_paragraph_accepts_angle_brackets :
    Paragraph "<" = true ∧ Paragraph "a<b>c" = true ∧
      ∀ s : String, Paragraph s = true := by
  refine ⟨rfl, rfl, fun s => ?_⟩
  exact search_of_nullable ParagraphRE rfl s.data

/-- Claim C4 (evaluation of the code at the spec's three inputs): the
`ISO8601` matcher REJECTS the canonical extended-format datetime
"2014-05-20T10:00:00Z" (removing the PERL backreferences turned the
month-day separator into plain text that the day group cannot follow),
while it does reject "2014-13-40" and accept the year-only "2014" as the
claim states. -/
theorem c4_iso8601_evaluations :
    ISO8601 "2014-05-20T10:00:00Z" = false ∧
      ISO8601 "2014-13-40" = false ∧ ISO8601 "2014" = true := by
  refine ⟨by decide, by decide, by decide⟩

/-- Claim C5 (evaluation of the code at a failing input): the `nowrap`
matcher registered by `AllowTables` is NOT empty-or-literal.  Its pattern
`(?i)|nowrap` has the empty pattern as an alternative and carries no
anchors, so under Go's `MatchString` it accepts every value: in
particular it accepts "xyz", which is neither empty nor the literal
token. -/
theorem c5_nowrap_matcher_accepts_everything :
    nowrapMatcher "xyz" = true ∧ nowrapMatcher "" = true ∧
      nowrapMatcher "nowrap" = true ∧ ∀ s : String, nowrapMatcher s = true := by
  refine ⟨rfl, rfl, rfl, fun s => ?_⟩
  exact search_of_nullable nowrapRE rfl s.data

/-- Claim C10: the non-negative-integer matcher `Integer` (unanchored
pattern `[0-9]+`) accepts a string exactly when the string contains at
least one ASCII digit anywhere in it; in particular it accepts "2x" and
"-5", which contain non-digit characters, and rejects "two". -/
theorem c10_integer_accepts_iff_contains_digit :
    (∀ s : String, Integer s = s.data.any (fun c => decide ('0' ≤ c) && decide (c ≤ '9'))) ∧
      Integer "2x" = true ∧ Integer "-5" = true ∧ Integer "two" = false := by
  refine ⟨fun s => integer_search_eq_any_digit s.data, rfl, rfl, rfl⟩

/-! ## Association lists with last-write-wins registration

The spec describes every rule store as a set/mapping in which a repeated
registration for the same key overwrites the earlier one and never
accumulates duplicate entries (§3 lifecycle, §4.2 idempotence).  The
stores are modelled as association lists with an update-or-append
`upsert`. -/

/-- Membership test on a list of keys. -/
def hasKey {K : Type} [BEq K] : List K → K → Bool
  | [], _ => false
  | x :: t, k => k == x || hasKey t k

/-- First-match lookup in an association list. -/
def lookupA {K V : Type} [BEq K] : List (K × V) → K → Option V
  | [], _ => none
  | (k', v) :: t, k => if k == k' then some v else lookupA t k

/-- Update the entry of a key in place, or append a new entry at the end:
re-registration overwrites, never duplicates. -/
def upsert {K V : Type} [BEq K] (k : K) (v : V) : List (K × V) → List (K × V)
  | [] => [(k, v)]
  | (k', v') :: t => if k == k' then (k, v) :: t else (k', v') :: upsert k v t

/-- Upsert the same value under several keys, in order. -/
def upsertMany {K V : Type} [BEq K] : List K → V → List (K × V) → List (K × V)
  | [], _, l => l
  | k :: ks, v, l => upsertMany ks v (upsert k v l)

theorem hasKey_append {K : Type} [BEq K] (l₁ l₂ : List K) (k : K) :
    hasKey (l₁ ++ l₂) k = (hasKey l₁ k || hasKey l₂ k) := by
  induction l₁ with
  | nil => simp [hasKey]
  | cons x t ih => simp [hasKey, ih, Bool.or_assoc]

theorem lookupA_upsert {K V : Type} [BEq K] [LawfulBEq K] (k k' : K) (v : V)
    (l : List (K × V)) :
    lookupA (upsert k v l) k' = if k' == k then some v else lookupA l k' := by
  induction l with
  | nil => simp [upsert, lookupA]
  | cons kv t ih =>
    obtain ⟨k₀, v₀⟩ := kv
    by_cases h : k = k₀
    · subst h
      by_cases h' : k' = k
      · subst h'; simp [upsert, lookupA]
      · simp [upsert, lookupA, h']
    · have hb : (k == k₀) = false := by simp [h]
      by_cases h' : k' = k₀
      · subst h'
        have : (k' == k) = false := by
          simp only [beq_eq_false_iff_ne, ne_eq]
          exact fun hk => h hk.symm
        simp [upsert, hb, lookupA, this]
      · simp [upsert, hb, lookupA, h', ih]

theorem lookupA_upsertMany {K V : Type} [BEq K] [LawfulBEq K] (ks : List K) (v : V)
    (l : List (K × V)) (k : K) :
    lookupA (upsertMany ks v l) k = if hasKey ks k then some v else lookupA l k := by
  induction ks generalizing l with
  | nil => simp [upsertMany, hasKey]
  | cons k₀ t ih =>
    cases h : (k == k₀) <;>
      cases h' : hasKey t k <;>
        simp [upsertMany, hasKey, ih, lookupA_upsert, h, h']

/-- Does some entry of an attribute-rule store target the given element? -/
def attrsHaveElem {V : Type} : List ((String × String) × V) → String → Bool
  | [], _ => false
  | (k, _) :: t, e => k.1 == e || attrsHaveElem t e

/-- Does some key of a key list target the given element? -/
def keysHaveElem : List (String × String) → String → Bool
  | [], _ => false
  | k :: t, e => k.1 == e || keysHaveElem t e

theorem attrsHaveElem_upsert {V : Type} (k : String × String) (v : V)
    (l : List ((String × String) × V)) (e : String) :
    attrsHaveElem (upsert k v l) e = (k.1 == e || attrsHaveElem l e) := by
  induction l with
  | nil => simp [upsert, attrsHaveElem]
  | cons kv t ih =>
    obtain ⟨k₀, v₀⟩ := kv
    by_cases h : k = k₀
    · subst h
      cases hk : (k.1 == e) <;> simp [upsert, attrsHaveElem, hk]
    · have hb : (k == k₀) = false := by simp [h]
      cases hk : (k.1 == e) <;> cases hk₀ : (k₀.1 == e) <;>
        simp [upsert, hb, attrsHaveElem, hk, hk₀, ih]

theorem attrsHaveElem_upsertMany {V : Type} (ks : List (String × String)) (v : V)
    (l : List ((String × String) × V)) (e : String) :
    attrsHaveElem (upsertMany ks v l) e = (keysHaveElem ks e || attrsHaveElem l e) := by
  induction ks generalizing l with
  | nil => simp [upsertMany, keysHaveElem]
  | cons k₀ t ih =>
    cases h : (k₀.1 == e) <;> cases h' : keysHaveElem t e <;>
      simp [upsertMany, keysHaveElem, ih, attrsHaveElem_upsert, h, h']

/-- Add an element name if it is not already present (spec §4.2:
`allowElements` is idempotent). -/
def insertNew (x : String) (l : List String) : List String :=
  if hasKey l x then l else l ++ [x]

/-- Add several element names. -/
def insertAll : List String → List String → List String
  | [], l => l
  | x :: xs, l => insertAll xs (insertNew x l)

theorem hasKey_insertNew (x : String) (l : List String) (e : String) :
    hasKey (insertNew x l) e = (e == x || hasKey l e) := by
  unfold insertNew
  cases h : hasKey l x with
  | true =>
    by_cases he : e = x
    · subst he; simp [h]
    · simp [he]
  | false =>
    cases he : (e == x) <;> simp [hasKey_append, hasKey, he]

theorem hasKey_insertAll (names l : List String) (e : String) :
    hasKey (insertAll names l) e = (hasKey names e || hasKey l e) := by
  induction names generalizing l with
  | nil => simp [insertAll, hasKey]
  | cons x t ih =>
    cases h : (e == x) <;> cases h' : hasKey t e <;>
      simp [insertAll, hasKey, ih, hasKey_insertNew, h, h']

/-- The key does not occur in the association list. -/
def keyFree {K V : Type} [BEq K] (k : K) : List (K × V) → Bool
  | [] => true
  | (k', _) :: t => if k == k' then false else keyFree k t

/-- Every key occurs at most once (no duplicate rule entries). -/
def nodupKeys {K V : Type} [BEq K] : List (K × V) → Bool
  | [] => true
  | (k, _) :: t => keyFree k t && nodupKeys t

theorem keyFree_upsert {K V : Type} [BEq K] [LawfulBEq K] (k k' : K) (v : V)
    (l : List (K × V)) :
    keyFree k' (upsert k v l) = if k' == k then false else keyFree k' l := by
  induction l with
  | nil => simp [upsert, keyFree]
  | cons kv t ih =>
    obtain ⟨k₀, v₀⟩ := kv
    by_cases h : k = k₀
    · subst h
      by_cases h' : k' = k
      · subst h'; simp [upsert, keyFree]
      · simp [upsert, keyFree, h']
    · have hb : (k == k₀) = false := by simp [h]
      by_cases h' : k' = k₀
      · subst h'
        have hkk : (k' == k) = false := by
          simp only [beq_eq_false_iff_ne, ne_eq]
          exact fun hk => h hk.symm
        simp [upsert, hb, keyFree, hkk]
      · simp [upsert, hb, keyFree, h', ih]

theorem nodupKeys_upsert {K V : Type} [BEq K] [LawfulBEq K] (k : K) (v : V)
    (l : List (K × V)) :
    nodupKeys (upsert k v l) = nodupKeys l := by
  induction l with
  | nil => simp [upsert, nodupKeys, keyFree]
  | cons kv t ih =>
    obtain ⟨k₀, v₀⟩ := kv
    by_cases h : k = k₀
    · subst h; simp [upsert, nodupKeys]
    · have hb : (k == k₀) = false := by simp [h]
      have hk₀k : (k₀ == k) = false := by
        simp only [beq_eq_false_iff_ne, ne_eq]
        exact fun hk => h hk.symm
      simp [upsert, hb, nodupKeys, keyFree_upsert, hk₀k, ih]

theorem nodupKeys_upsertMany {K V : Type} [BEq K] [LawfulBEq K] (ks : List K) (v : V)
    (l : List (K × V)) :
    nodupKeys (upsertMany ks v l) = nodupKeys l := by
  induction ks generalizing l with
  | nil => simp [upsertMany]
  | cons k₀ t ih => simp [upsertMany, ih, nodupKeys_upsert]

/-! ## The policy model

`helpers.go` is written against the policy engine of the repository
(`policy.go` / `sanitize.go`), which is not among the sources under
`src/`; the engine is therefore modelled from the spec. -/

/-- Modelled from the spec: the outcome of `evaluate` (§1, §6) — either
`Drop`, or `Keep` with the sanitized value and the list of attributes the
URL subsystem asks the caller to inject. -/
inductive Verdict : Type where
  | Drop : Verdict
  | Keep (value : String) (extra : List (String × String)) : Verdict
deriving DecidableEq

/-- Modelled from the spec: the `Policy` record of §3 — the element-rule
set, the per-element and global attribute-rule stores (an entry's value
is the optional value matcher; `none` means the attribute is allowed with
no value matcher), and the `URLPolicy` fields.  The missing source files
`policy.go`/`sanitize.go` would define this type. -/
structure Policy : Type where
  elements : List String
  elementAttributes : List ((String × String) × Option Matcher)
  globalAttributes : List (String × Option Matcher)
  requireParseable : Bool
  allowRelative : Bool
  allowedSchemes : List String
  forceNoFollow : Bool

/-- Modelled from the spec: a policy with nothing allowed (the state
before any builder call). -/
def emptyPolicy : Policy :=
  { elements := []
    elementAttributes := []
    globalAttributes := []
    requireParseable := false
    allowRelative := false
    allowedSchemes := []
    forceNoFollow := false }

/-- Modelled from the spec §4.3: the elements that receive a forced
`rel=nofollow` annotation when `forceNoFollow` is set. -/
def noFollowElements : List String := ["a", "area", "link"]

/-- The ordered pairs (element, attribute) registered by one
`AllowAttrs(attrs...)...OnElements(elems...)` call. -/
def keyPairsOne (e : String) : List String → List (String × String)
  | [] => []
  | a :: t => (e, a) :: keyPairsOne e t

/-- All (element, attribute) pairs of an `OnElements` registration. -/
def keyPairs : List String → List String → List (String × String)
  | [], _ => []
  | e :: es, attrs => keyPairsOne e attrs ++ keyPairs es attrs

/-- Modelled from the spec §4.2:
`allowAttribute(names).matching(matcher).onElements(elems)` registers one
AttributeRule per (element, attribute) pair; re-registration for the same
pair overwrites (last write wins). -/
def Policy.allowAttrsOnElements (p : Policy) (attrs : List String)
    (m : Option Matcher) (elems : List String) : Policy :=
  { p with elementAttributes := upsertMany (keyPairs elems attrs) m p.elementAttributes }

/-- Modelled from the spec §4.2:
`allowAttribute(names).matching(matcher).globally()` registers one global
AttributeRule per attribute name; it does not by itself admit any
element. -/
def Policy.allowAttrsGlobally (p : Policy) (attrs : List String)
    (m : Option Matcher) : Policy :=
  { p with globalAttributes := upsertMany attrs m p.globalAttributes }

/-- Modelled from the spec §4.2: `allowElements(names)` registers an
ElementRule for each name; idempotent. -/
def Policy.allowElements (p : Policy) (names : List String) : Policy :=
  { p with elements := insertAll names p.elements }

/-- Modelled from the spec §3/§4.3: toggle the structural-parse
requirement of the URLPolicy. -/
def Policy.RequireParseableURLs (p : Policy) (b : Bool) : Policy :=
  { p with requireParseable := b }

/-- Modelled from the spec §3/§4.3: toggle admission of relative URLs. -/
def Policy.AllowRelativeURLs (p : Policy) (b : Bool) : Policy :=
  { p with allowRelative := b }

/-- Modelled from the spec §3/§4.3: set the allowed URL scheme set. -/
def Policy.AllowURLSchemes (p : Policy) (schemes : List String) : Policy :=
  { p with allowedSchemes := schemes }

/-- Modelled from the spec §3/§4.3: require the nofollow annotation on
links (`forceNoFollow`). -/
def Policy.RequireNoFollowOnLinks (p : Policy) (b : Bool) : Policy :=
  { p with forceNoFollow := b }

/-! ## URL admission (spec §4.3) -/

/-- Lower-case a string character by character (ASCII case folding, as in
scheme comparison). -/
def lowerStr (s : String) : String := String.mk (s.data.map Char.toLower)

/-- Case-insensitive string comparison, used for URL schemes. -/
def strEqCI (a b : String) : Bool := lowerStr a == lowerStr b

/-- May the character appear inside a URL scheme
(RFC 3986: ALPHA / DIGIT / plus / minus / dot)? -/
def isSchemeChar (c : Char) : Bool :=
  c.isAlpha || c.isDigit || c == '+' || c == '-' || c == '.'

/-- Scan for the colon ending a scheme. -/
def extractSchemeAux : List Char → List Char → Option String
  | acc, ':' :: _ => some (String.mk acc.reverse)
  | acc, c :: rest => if isSchemeChar c then extractSchemeAux (c :: acc) rest else none
  | _, [] => none

/-- Modelled from the spec §4.3 step 2 (the structural URL parser,
`net/url`, is outside `src/`): a URL is absolute when it starts with a
scheme — a letter followed by scheme characters up to a colon — and the
scheme is what precedes the colon; otherwise it is relative and has no
scheme. -/
def extractScheme (s : String) : Option String :=
  match s.data with
  | [] => none
  | c :: rest => if c.isAlpha then extractSchemeAux [c] rest else none

/-- Modelled from the spec §4.3 step 1 (the structural URL parser is
outside `src/`): structural parsing fails on URLs containing ASCII
control characters, and otherwise succeeds. -/
def urlParseable (s : String) : Bool :=
  s.data.all (fun c => !decide (c.toNat < 32) && c != '\x7f')

/-- Modelled from the spec §4.3 step 3: the attributes the URL subsystem
injects on acceptance — `rel=nofollow` when `forceNoFollow` is set and
the owning element is a link element. -/
def Policy.noFollowInjection (p : Policy) (elem : String) : List (String × String) :=
  if p.forceNoFollow && hasKey noFollowElements elem then [("rel", "nofollow")] else []

/-- Modelled from the spec §4.3: `admit(attribute, rawURL, element)`.
Step 1: if `requireParseable`, reject structurally unparseable URLs.
Step 2: a relative URL is rejected unless `allowRelative`; an absolute
URL is rejected unless its scheme is in `allowedSchemes`
(case-insensitive comparison).  Step 3: on acceptance, return the
attributes to inject. -/
def Policy.admitURL (p : Policy) (elem : String) (value : String) :
    Option (List (String × String)) :=
  if p.requireParseable && !urlParseable value then none
  else
    match extractScheme value with
    | none => if p.allowRelative then some (p.noFollowInjection elem) else none
    | some sch =>
        if p.allowedSchemes.any (fun t => strEqCI t sch) then
          some (p.noFollowInjection elem)
        else none

/-! ## The query surface (spec §4.4 and §6) -/

/-- Modelled from the spec §4.4 step 2: resolve the applicable
AttributeRule — the element-scoped rule if one exists, else the global
rule, else nothing. -/
def Policy.resolveRule (p : Policy) (elem attr : String) : Option (Option Matcher) :=
  match lookupA p.elementAttributes (elem, attr) with
  | some m => some m
  | none => lookupA p.globalAttributes attr

/-- Run the resolved rule's matcher; a rule with no matcher accepts every
value. -/
def matcherAccepts : Option Matcher → String → Bool
  | none, _ => true
  | some m, v => m v

/-- Modelled from the spec §4.4: `evaluate(element, attribute, value)`.
Resolve the rule (element-scoped beats global; no rule means reject), run
its matcher, and for URL-bearing attributes additionally pass the value
through the URL subsystem, whose rejection overrides acceptance and whose
injected attributes are merged into the result. -/
def Policy.evaluate (p : Policy) (elem attr value : String) : Verdict :=
  match p.resolveRule elem attr with
  | none => .Drop
  | some om =>
      if matcherAccepts om value then
        if attr == "href" || attr == "src" then
          match p.admitURL elem value with
          | none => .Drop
          | some extra => .Keep value extra
        else .Keep value []
      else .Drop

/-- Modelled from the spec §3/§6: an element is admissible iff it has an
ElementRule or it appears as the scope of at least one AttributeRule. -/
def Policy.isElementAdmissible (p : Policy) (e : String) : Bool :=
  hasKey p.elements e || attrsHaveElem p.elementAttributes e

/-- Modelled from the spec §4.3 step 3: the walker-side application of
the injected `rel` attribute — the `nofollow` token is merged into the
element's existing `rel` token list rather than overwriting it. -/
def mergeRelTokens (existing : List String) : List String :=
  if hasKey existing "nofollow" then existing else existing ++ ["nofollow"]

/-! ## The composite helpers of `helpers.go` -/

/-- `AllowStandardURLs` from `helpers.go`: parseable URLs, relative URLs
permitted, schemes restricted to mailto/http/https, forced
`rel=nofollow` on links. -/
def Policy.AllowStandardURLs (p : Policy) : Policy :=
  (((p.RequireParseableURLs true).AllowRelativeURLs
      true).AllowURLSchemes ["mailto", "http", "https"]).RequireNoFollowOnLinks true

/-- `AllowStandardAttributes` from `helpers.go`: `dir`, `lang`, `id` and
`title` globally, each with its matcher. -/
def Policy.AllowStandardAttributes (p : Policy) : Policy :=
  (((p.allowAttrsGlobally ["dir"] (some Direction)).allowAttrsGlobally
      ["lang"] (some langMatcher)).allowAttrsGlobally
      ["id"] (some idMatcher)).allowAttrsGlobally ["title"] (some Paragraph)

/-- `AllowImages` from `helpers.go`. -/
def Policy.AllowImages (p : Policy) : Policy :=
  ((((p.allowAttrsOnElements ["align"] (some ImageAlign)
      ["img"]).allowAttrsOnElements ["alt"] (some Paragraph)
      ["img"]).allowAttrsOnElements ["height", "width"] (some NumberOrPercent)
      ["img"]).AllowStandardURLs).allowAttrsOnElements ["src"] none ["img"]

/-- `AllowLists` from `helpers.go`. -/
def Policy.AllowLists (p : Policy) : Policy :=
  (((p.allowAttrsOnElements ["type"] (some ListType)
      ["ol", "ul"]).allowAttrsOnElements ["type"] (some ListType)
      ["li"]).allowAttrsOnElements ["value"] (some Integer)
      ["li"]).allowElements ["dl", "dt", "dd"]

/-- `AllowTables` from `helpers.go`: the fixed matrix of
(element, attribute, matcher) registrations for table markup, in source
order. -/
def Policy.AllowTables (p : Policy) : Policy :=
  ((((((((((((((((((p.allowAttrsOnElements ["height", "width"] (some NumberOrPercent)
      ["table"]).allowAttrsOnElements ["summary"] (some Paragraph)
      ["table"]).allowElements
      ["caption"]).allowAttrsOnElements ["align"] (some CellAlign)
      ["col", "colgroup"]).allowAttrsOnElements ["height", "width"] (some NumberOrPercent)
      ["col", "colgroup"]).allowAttrsOnElements ["span"] (some Integer)
      ["colgroup", "col"]).allowAttrsOnElements ["valign"] (some CellVerticalAlign)
      ["col", "colgroup"]).allowAttrsOnElements ["align"] (some CellAlign)
      ["thead", "tr"]).allowAttrsOnElements ["valign"] (some CellVerticalAlign)
      ["thead", "tr"]).allowAttrsOnElements ["abbr"] (some Paragraph)
      ["td", "th"]).allowAttrsOnElements ["align"] (some CellAlign)
      ["td", "th"]).allowAttrsOnElements ["colspan", "rowspan"] (some Integer)
      ["td", "th"]).allowAttrsOnElements ["headers"] (some NamesAndSpaces)
      ["td", "th"]).allowAttrsOnElements ["height", "width"] (some NumberOrPercent)
      ["td", "th"]).allowAttrsOnElements ["scope"] (some scopeMatcher)
      ["td", "th"]).allowAttrsOnElements ["valign"] (some CellVerticalAlign)
      ["td", "th"]).allowAttrsOnElements ["nowrap"] (some nowrapMatcher)
      ["td", "th"]).allowAttrsOnElements ["align"] (some CellAlign)
      ["tbody", "tfoot"]).allowAttrsOnElements ["valign"] (some CellVerticalAlign)
      ["tbody", "tfoot"]

/-! ## Claims about the URL-policy and attribute composites -/

/-- Claim C2: under any policy on which `AllowStandardURLs` has been
called, evaluating `href="javascript:alert(1)"` on an `a` element yields
`Drop` — the scheme `javascript` is not among the allowed schemes
mailto/http/https (whatever attribute rules the starting policy had). -/
theorem c2_javascript_href_dropped (p : Policy) :
    (p.AllowStandardURLs).evaluate "a" "href" "javascript:alert(1)" = Verdict.Drop := by
  have hres : (p.AllowStandardURLs).resolveRule "a" "href" = p.resolveRule "a" "href" := rfl
  have hadmit : (p.AllowStandardURLs).admitURL "a" "javascript:alert(1)" = none := rfl
  unfold Policy.evaluate
  rw [hres]
  cases hr : p.resolveRule "a" "href" with
  | none => rfl
  | some om =>
      cases hm : matcherAccepts om "javascript:alert(1)" with
      | false => simp [hm]
      | true => simp [hm, hadmit]

/-- A closed-form fact used by the witness for claim C2's sibling C3: a
policy allowing bare `href` on `a`. -/
def c3WitnessPolicy : Policy :=
  emptyPolicy.allowAttrsOnElements ["href"] none ["a"]

/-- Claim C3: under any standard-URL policy in which the element `a` is
admissible with `href` allowed (by a rule whose matcher accepts the
value), evaluating `href="http://example.com"` on `a` yields `Keep` with
an injected `rel=nofollow` attribute; and the injected `nofollow` token
is merged into any existing `rel` token list — the merge always contains
`nofollow` and preserves every existing token — rather than overwriting
it. -/
theorem c3_http_href_keep_nofollow (p : Policy)
    (_hadm : (p.AllowStandardURLs).isElementAdmissible "a" = true)
    (hrule : ∃ om, p.resolveRule "a" "href" = some om ∧
      matcherAccepts om "http://example.com" = true) :
    (p.AllowStandardURLs).evaluate "a" "href" "http://example.com"
        = Verdict.Keep "http://example.com" [("rel", "nofollow")] ∧
      ∀ toks : List String, hasKey (mergeRelTokens toks) "nofollow" = true ∧
        ∀ t : String, hasKey toks t = true → hasKey (mergeRelTokens toks) t = true := by
  obtain ⟨om, hr, hm⟩ := hrule
  constructor
  · have hres : (p.AllowStandardURLs).resolveRule "a" "href"
        = p.resolveRule "a" "href" := rfl
    have hadmit : (p.AllowStandardURLs).admitURL "a" "http://example.com"
        = some [("rel", "nofollow")] := rfl
    unfold Policy.evaluate
    rw [hres, hr]
    simp [hm, hadmit]
  · intro toks
    constructor
    · unfold mergeRelTokens
      cases h : hasKey toks "nofollow" with
      | true => simp [h]
      | false => simp [h, hasKey_append, hasKey]
    · intro t ht
      unfold mergeRelTokens
      cases h : hasKey toks "nofollow" <;> simp [h, hasKey_append, ht]

/-- Witness for claim C3: the hypotheses hold for the concrete policy
that allows bare `href` on `a`, and the theorem then gives both the
`Keep`-with-nofollow verdict and the merge behaviour on the concrete
existing token list `["noopener"]`. -/
theorem c3_http_href_keep_nofollow_witness :
    (c3WitnessPolicy.AllowStandardURLs).evaluate "a" "href" "http://example.com"
        = Verdict.Keep "http://example.com" [("rel", "nofollow")] ∧
      hasKey (mergeRelTokens ["noopener"]) "nofollow" = true ∧
      hasKey (mergeRelTokens ["noopener"]) "noopener" = true := by
  have h := c3_http_href_keep_nofollow c3WitnessPolicy (by rfl) ⟨none, rfl, rfl⟩
  exact ⟨h.1, (h.2 ["noopener"]).1, (h.2 ["noopener"]).2 "noopener" (by rfl)⟩

/-- Claim C7: `AllowStandardAttributes` registers exactly the four global
attribute rules `dir` (direction matcher), `lang` (2-to-20-letter token),
`id` (safe identifier) and `title` (free text) — on an empty policy the
global store afterwards holds exactly those four entries — it changes no
other component of the policy, and it admits no element by itself. -/
theorem c7_standard_attributes_effect (p : Policy) :
    (p.AllowStandardAttributes).elements = p.elements ∧
    (p.AllowStandardAttributes).elementAttributes = p.elementAttributes ∧
    (p.AllowStandardAttributes).requireParseable = p.requireParseable ∧
    (p.AllowStandardAttributes).allowRelative = p.allowRelative ∧
    (p.AllowStandardAttributes).allowedSchemes = p.allowedSchemes ∧
    (p.AllowStandardAttributes).forceNoFollow = p.forceNoFollow ∧
    (p.AllowStandardAttributes).globalAttributes
        = upsert "title" (some Paragraph) (upsert "id" (some idMatcher)
            (upsert "lang" (some langMatcher) (upsert "dir" (some Direction)
              p.globalAttributes))) ∧
    (emptyPolicy.AllowStandardAttributes).globalAttributes
        = [("dir", some Direction), ("lang", some langMatcher),
            ("id", some idMatcher), ("title", some Paragraph)] ∧
    ∀ e, (p.AllowStandardAttributes).isElementAdmissible e = p.isElementAdmissible e :=
  ⟨rfl, rfl, rfl, rfl, rfl, rfl, rfl, rfl, fun _ => rfl⟩

/-- Modelled from the spec §4.2 (Images bullet): the fixed sequence of
primitive calls the spec prescribes for the images composite — `align`
(image-align vocabulary), `alt` (free text), `height`/`width`
(number-or-percent) scoped to `img`; apply the standard-URL policy; admit
`src` on `img` with no value matcher. -/
def allowImagesSpecSequence (p : Policy) : Policy :=
  ((((p.allowAttrsOnElements ["align"] (some ImageAlign)
      ["img"]).allowAttrsOnElements ["alt"] (some Paragraph)
      ["img"]).allowAttrsOnElements ["height", "width"] (some NumberOrPercent)
      ["img"]).AllowStandardURLs).allowAttrsOnElements ["src"] none ["img"]

/-- Claim C8: `AllowImages` has exactly the effect of the fixed primitive
sequence the spec prescribes — the resulting policies are equal, so no
other rule is added and the composite is reproducible rule for rule. -/
theorem c8_allow_images_is_spec_sequence (p : Policy) :
    p.AllowImages = allowImagesSpecSequence p := rfl

/-! ## Builder-call sequences (spec §4.2 and §6) -/

/-- Modelled from the spec §4.2/§6: the construction-time builder surface
as an explicit call datatype, so that "a sequence of builder calls" can
be quantified over. -/
inductive BuilderCall : Type where
  | attrsOn (attrs : List String) (m : Option Matcher) (elems : List String) : BuilderCall
  | attrsGlobally (attrs : List String) (m : Option Matcher) : BuilderCall
  | elems (names : List String) : BuilderCall
  | parseableURLs (b : Bool) : BuilderCall
  | relativeURLs (b : Bool) : BuilderCall
  | urlSchemes (schemes : List String) : BuilderCall
  | noFollowOnLinks (b : Bool) : BuilderCall

/-- Apply one builder call to a policy. -/
def applyCall (p : Policy) : BuilderCall → Policy
  | .attrsOn attrs m es => p.allowAttrsOnElements attrs m es
  | .attrsGlobally attrs m => p.allowAttrsGlobally attrs m
  | .elems names => p.allowElements names
  | .parseableURLs b => p.RequireParseableURLs b
  | .relativeURLs b => p.AllowRelativeURLs b
  | .urlSchemes ss => p.AllowURLSchemes ss
  | .noFollowOnLinks b => p.RequireNoFollowOnLinks b

/-- Apply a sequence of builder calls in order. -/
def applyCalls (p : Policy) : List BuilderCall → Policy
  | [] => p
  | c :: cs => applyCalls (applyCall p c) cs

/-- The registrations of `AllowTables`, in source order, as a builder
call sequence. -/
def tableCalls : List BuilderCall :=
  [.attrsOn ["height", "width"] (some NumberOrPercent) ["table"],
    .attrsOn ["summary"] (some Paragraph) ["table"],
    .elems ["caption"],
    .attrsOn ["align"] (some CellAlign) ["col", "colgroup"],
    .attrsOn ["height", "width"] (some NumberOrPercent) ["col", "colgroup"],
    .attrsOn ["span"] (some Integer) ["colgroup", "col"],
    .attrsOn ["valign"] (some CellVerticalAlign) ["col", "colgroup"],
    .attrsOn ["align"] (some CellAlign) ["thead", "tr"],
    .attrsOn ["valign"] (some CellVerticalAlign) ["thead", "tr"],
    .attrsOn ["abbr"] (some Paragraph) ["td", "th"],
    .attrsOn ["align"] (some CellAlign) ["td", "th"],
    .attrsOn ["colspan", "rowspan"] (some Integer) ["td", "th"],
    .attrsOn ["headers"] (some NamesAndSpaces) ["td", "th"],
    .attrsOn ["height", "width"] (some NumberOrPercent) ["td", "th"],
    .attrsOn ["scope"] (some scopeMatcher) ["td", "th"],
    .attrsOn ["valign"] (some CellVerticalAlign) ["td", "th"],
    .attrsOn ["nowrap"] (some nowrapMatcher) ["td", "th"],
    .attrsOn ["align"] (some CellAlign) ["tbody", "tfoot"],
    .attrsOn ["valign"] (some CellVerticalAlign) ["tbody", "tfoot"]]

/-- `AllowTables` is exactly the application of its call sequence. -/
theorem allowTables_eq_applyCalls (p : Policy) :
    p.AllowTables = applyCalls p tableCalls := rfl

/-- Last write of a per-call overwrite semantics over a call sequence
(later calls win). -/
def seqW {α : Type} (w : BuilderCall → Option α) : List BuilderCall → Option α
  | [] => none
  | c :: cs =>
      match seqW w cs with
      | some v => some v
      | none => w c

/-- Disjunction of a per-call Boolean over a call sequence. -/
def seqOr (g : BuilderCall → Bool) : List BuilderCall → Bool
  | [] => false
  | c :: cs => g c || seqOr g cs

/-- A projection that every call either overwrites with a value of its
own or leaves unchanged is, after a call sequence, the last written value
if any, else the starting value. -/
theorem applyCalls_override {α : Type} (f : Policy → α) (w : BuilderCall → Option α)
    (hc : ∀ p c, f (applyCall p c) = ((w c).getD (f p)))
    (cs : List BuilderCall) (p : Policy) :
    f (applyCalls p cs) = (seqW w cs).getD (f p) := by
  induction cs generalizing p with
  | nil => rfl
  | cons c t ih =>
    simp only [applyCalls, seqW, ih, hc]
    cases h : seqW w t <;> simp [h]

/-- A projection that every call can only turn on accumulates by
disjunction over a call sequence. -/
theorem applyCalls_accum (f : Policy → Bool) (g : BuilderCall → Bool)
    (hc : ∀ p c, f (applyCall p c) = (g c || f p))
    (cs : List BuilderCall) (p : Policy) :
    f (applyCalls p cs) = (seqOr g cs || f p) := by
  induction cs generalizing p with
  | nil => simp [applyCalls, seqOr]
  | cons c t ih =>
    simp only [applyCalls, seqOr, ih, hc]
    cases g c <;> cases seqOr g t <;> simp

/-- What one call writes to the element-scoped rule store at one key. -/
def callEAWrite (k : String × String) : BuilderCall → Option (Option (Option Matcher))
  | .attrsOn attrs m es => if hasKey (keyPairs es attrs) k then some (some m) else none
  | _ => none

theorem eaLookup_call (k : String × String) (p : Policy) (c : BuilderCall) :
    lookupA (applyCall p c).elementAttributes k
      = ((callEAWrite k c).getD (lookupA p.elementAttributes k)) := by
  cases c with
  | attrsOn attrs m es =>
      simp only [applyCall, Policy.allowAttrsOnElements, callEAWrite,
        lookupA_upsertMany]
      cases h : hasKey (keyPairs es attrs) k <;> simp [h]
  | attrsGlobally attrs m => rfl
  | elems names => rfl
  | parseableURLs b => rfl
  | relativeURLs b => rfl
  | urlSchemes ss => rfl
  | noFollowOnLinks b => rfl

theorem eaLookup_calls (k : String × String) (cs : List BuilderCall) (p : Policy) :
    lookupA (applyCalls p cs).elementAttributes k
      = (seqW (callEAWrite k) cs).getD (lookupA p.elementAttributes k) :=
  applyCalls_override (fun q => lookupA q.elementAttributes k) (callEAWrite k)
    (fun p c => eaLookup_call k p c) cs p

/-- What one call writes to the global rule store at one attribute. -/
def callGAWrite (a : String) : BuilderCall → Option (Option (Option Matcher))
  | .attrsGlobally attrs m => if hasKey attrs a then some (some m) else none
  | _ => none

theorem gaLookup_call (a : String) (p : Policy) (c : BuilderCall) :
    lookupA (applyCall p c).globalAttributes a
      = ((callGAWrite a c).getD (lookupA p.globalAttributes a)) := by
  cases c with
  | attrsGlobally attrs m =>
      simp only [applyCall, Policy.allowAttrsGlobally, callGAWrite, lookupA_upsertMany]
      cases h : hasKey attrs a <;> simp [h]
  | attrsOn attrs m es => rfl
  | elems names => rfl
  | parseableURLs b => rfl
  | relativeURLs b => rfl
  | urlSchemes ss => rfl
  | noFollowOnLinks b => rfl

theorem gaLookup_calls (a : String) (cs : List BuilderCall) (p : Policy) :
    lookupA (applyCalls p cs).globalAttributes a
      = (seqW (callGAWrite a) cs).getD (lookupA p.globalAttributes a) :=
  applyCalls_override (fun q => lookupA q.globalAttributes a) (callGAWrite a)
    (fun p c => gaLookup_call a p c) cs p

/-- Does one call register an ElementRule for the element? -/
def callAddsElem (e : String) : BuilderCall → Bool
  | .elems names => hasKey names e
  | _ => false

theorem elemsHas_call (e : String) (p : Policy) (c : BuilderCall) :
    hasKey (applyCall p c).elements e = (callAddsElem e c || hasKey p.elements e) := by
  cases c <;>
    simp [applyCall, Policy.allowAttrsOnElements, Policy.allowAttrsGlobally,
      Policy.allowElements, Policy.RequireParseableURLs, Policy.AllowRelativeURLs,
      Policy.AllowURLSchemes, Policy.RequireNoFollowOnLinks, callAddsElem,
      hasKey_insertAll]

theorem elemsHas_calls (e : String) (cs : List BuilderCall) (p : Policy) :
    hasKey (applyCalls p cs).elements e
      = (seqOr (callAddsElem e) cs || hasKey p.elements e) :=
  applyCalls_accum (fun q => hasKey q.elements e) (callAddsElem e)
    (fun p c => elemsHas_call e p c) cs p

/-- Does one call register an attribute rule scoped to the element? -/
def callEAElem (e : String) : BuilderCall → Bool
  | .attrsOn attrs _ es => keysHaveElem (keyPairs es attrs) e
  | _ => false

theorem eaElem_call (e : String) (p : Policy) (c : BuilderCall) :
    attrsHaveElem (applyCall p c).elementAttributes e
      = (callEAElem e c || attrsHaveElem p.elementAttributes e) := by
  cases c <;>
    simp [applyCall, Policy.allowAttrsOnElements, Policy.allowAttrsGlobally,
      Policy.allowElements, Policy.RequireParseableURLs, Policy.AllowRelativeURLs,
      Policy.AllowURLSchemes, Policy.RequireNoFollowOnLinks, callEAElem,
      attrsHaveElem_upsertMany]

theorem eaElem_calls (e : String) (cs : List BuilderCall) (p : Policy) :
    attrsHaveElem (applyCalls p cs).elementAttributes e
      = (seqOr (callEAElem e) cs || attrsHaveElem p.elementAttributes e) :=
  applyCalls_accum (fun q => attrsHaveElem q.elementAttributes e) (callEAElem e)
    (fun p c => eaElem_call e p c) cs p

/-- What one call writes to `requireParseable`. -/
def callSetRP : BuilderCall → Option Bool
  | .parseableURLs b => some b
  | _ => none

theorem requireParseable_calls (cs : List BuilderCall) (p : Policy) :
    (applyCalls p cs).requireParseable = (seqW callSetRP cs).getD p.requireParseable :=
  applyCalls_override (fun q => q.requireParseable) callSetRP
    (fun p c => by cases c <;> rfl) cs p

/-- What one call writes to `allowRelative`. -/
def callSetAR : BuilderCall → Option Bool
  | .relativeURLs b => some b
  | _ => none

theorem allowRelative_calls (cs : List BuilderCall) (p : Policy) :
    (applyCalls p cs).allowRelative = (seqW callSetAR cs).getD p.allowRelative :=
  applyCalls_override (fun q => q.allowRelative) callSetAR
    (fun p c => by cases c <;> rfl) cs p

/-- What one call writes to `allowedSchemes`. -/
def callSetSchemes : BuilderCall → Option (List String)
  | .urlSchemes ss => some ss
  | _ => none

theorem allowedSchemes_calls (cs : List BuilderCall) (p : Policy) :
    (applyCalls p cs).allowedSchemes = (seqW callSetSchemes cs).getD p.allowedSchemes :=
  applyCalls_override (fun q => q.allowedSchemes) callSetSchemes
    (fun p c => by cases c <;> rfl) cs p

/-- What one call writes to `forceNoFollow`. -/
def callSetNF : BuilderCall → Option Bool
  | .noFollowOnLinks b => some b
  | _ => none

theorem forceNoFollow_calls (cs : List BuilderCall) (p : Policy) :
    (applyCalls p cs).forceNoFollow = (seqW callSetNF cs).getD p.forceNoFollow :=
  applyCalls_override (fun q => q.forceNoFollow) callSetNF
    (fun p c => by cases c <;> rfl) cs p

/-! ## Behavioural equality of policies -/

/-- Two policies are behaviourally identical when they give the same
admissibility verdict for every element and the same `evaluate` verdict
on every input. -/
def behavEq (p q : Policy) : Prop :=
  (∀ e, p.isElementAdmissible e = q.isElementAdmissible e) ∧
    ∀ e a v, p.evaluate e a v = q.evaluate e a v

theorem resolveRule_congr (p q : Policy)
    (hea : ∀ k, lookupA p.elementAttributes k = lookupA q.elementAttributes k)
    (hga : ∀ a, lookupA p.globalAttributes a = lookupA q.globalAttributes a)
    (e a : String) : p.resolveRule e a = q.resolveRule e a := by
  unfold Policy.resolveRule
  rw [hea (e, a), hga a]

theorem admitURL_congr (p q : Policy)
    (h1 : p.requireParseable = q.requireParseable)
    (h2 : p.allowRelative = q.allowRelative)
    (h3 : p.allowedSchemes = q.allowedSchemes)
    (h4 : p.forceNoFollow = q.forceNoFollow)
    (e v : String) : p.admitURL e v = q.admitURL e v := by
  unfold Policy.admitURL Policy.noFollowInjection
  rw [h1, h2, h3, h4]

/-- `evaluate` observes a policy only through its rule lookups and its
URL-policy fields. -/
theorem evaluate_congr (p q : Policy)
    (hea : ∀ k, lookupA p.elementAttributes k = lookupA q.elementAttributes k)
    (hga : ∀ a, lookupA p.globalAttributes a = lookupA q.globalAttributes a)
    (h1 : p.requireParseable = q.requireParseable)
    (h2 : p.allowRelative = q.allowRelative)
    (h3 : p.allowedSchemes = q.allowedSchemes)
    (h4 : p.forceNoFollow = q.forceNoFollow)
    (e a v : String) : p.evaluate e a v = q.evaluate e a v := by
  unfold Policy.evaluate
  rw [resolveRule_congr p q hea hga e a, admitURL_congr p q h1 h2 h3 h4 e v]

/-- Applying a builder call sequence a second time leaves a policy
behaviourally identical to applying it once. -/
theorem applyCalls_twice_behavEq (cs : List BuilderCall) (p : Policy) :
    behavEq (applyCalls (applyCalls p cs) cs) (applyCalls p cs) := by
  constructor
  · intro e
    simp only [Policy.isElementAdmissible, elemsHas_calls, eaElem_calls]
    cases seqOr (callAddsElem e) cs <;> cases seqOr (callEAElem e) cs <;> simp
  · intro e a v
    apply evaluate_congr
    · intro k
      simp only [eaLookup_calls]
      cases h : seqW (callEAWrite k) cs <;> simp [h]
    · intro a'
      simp only [gaLookup_calls]
      cases h : seqW (callGAWrite a') cs <;> simp [h]
    · simp only [requireParseable_calls]
      cases h : seqW callSetRP cs <;> simp [h]
    · simp only [allowRelative_calls]
      cases h : seqW callSetAR cs <;> simp [h]
    · simp only [allowedSchemes_calls]
      cases h : seqW callSetSchemes cs <;> simp [h]
    · simp only [forceNoFollow_calls]
      cases h : seqW callSetNF cs <;> simp [h]

/-- One builder call never introduces duplicate entries into either rule
store. -/
theorem nodup_call (p : Policy) (c : BuilderCall) :
    nodupKeys (applyCall p c).elementAttributes = nodupKeys p.elementAttributes ∧
      nodupKeys (applyCall p c).globalAttributes = nodupKeys p.globalAttributes := by
  cases c <;>
    simp [applyCall, Policy.allowAttrsOnElements, Policy.allowAttrsGlobally,
      Policy.allowElements, Policy.RequireParseableURLs, Policy.AllowRelativeURLs,
      Policy.AllowURLSchemes, Policy.RequireNoFollowOnLinks, nodupKeys_upsertMany]

/-- A builder call sequence preserves duplicate-freeness of the rule
stores. -/
theorem nodup_calls (cs : List BuilderCall) (p : Policy)
    (h1 : nodupKeys p.elementAttributes = true)
    (h2 : nodupKeys p.globalAttributes = true) :
    nodupKeys (applyCalls p cs).elementAttributes = true ∧
      nodupKeys (applyCalls p cs).globalAttributes = true := by
  induction cs generalizing p with
  | nil => exact ⟨h1, h2⟩
  | cons c t ih =>
      have hc := nodup_call p c
      exact ih (applyCall p c) (by rw [hc.1, h1]) (by rw [hc.2, h2])

/-- Claim C9: builder idempotence — applying any sequence of builder
calls twice produces a policy behaviourally identical (same `evaluate`
and admissibility verdicts on every input) to applying it once; in
particular the composite helper `AllowTables` is idempotent in this
sense; and no duplicate rule entries ever accumulate in the rule stores
built from a call sequence. -/
theorem c9_builder_idempotence :
    (∀ (cs : List BuilderCall) (p : Policy),
        behavEq (applyCalls (applyCalls p cs) cs) (applyCalls p cs)) ∧
      (∀ p : Policy, behavEq ((p.AllowTables).AllowTables) (p.AllowTables)) ∧
      ∀ cs : List BuilderCall,
        nodupKeys (applyCalls emptyPolicy cs).elementAttributes = true ∧
          nodupKeys (applyCalls emptyPolicy cs).globalAttributes = true := by
  refine ⟨applyCalls_twice_behavEq, fun p => ?_, fun cs => nodup_calls cs emptyPolicy rfl rfl⟩
  exact applyCalls_twice_behavEq tableCalls p

/-- Claim C6: after `AllowTables`, `colspan` on `td` is validated by the
non-negative-integer matcher — the value "2" is kept unchanged (with no
injected attributes) and the value "two" is dropped, whatever the policy
looked like before the call. -/
theorem c6_td_colspan_integer (p : Policy) :
    (p.AllowTables).evaluate "td" "colspan" "2" = Verdict.Keep "2" [] ∧
      (p.AllowTables).evaluate "td" "colspan" "two" = Verdict.Drop := by
  have hlook : lookupA (p.AllowTables).elementAttributes ("td", "colspan")
      = some (some Integer) := by
    rw [allowTables_eq_applyCalls, eaLookup_calls]
    rfl
  have hres : (p.AllowTables).resolveRule "td" "colspan" = some (some Integer) := by
    unfold Policy.resolveRule
    rw [hlook]
  constructor
  · unfold Policy.evaluate
    rw [hres]
    rfl
  · unfold Policy.evaluate
    rw [hres]
    rfl
